import Mathlib

/-
Verification of the task-graph construction in rcnmf/tsqr.py (direct TSQR).
The Python source is shallowly embedded: task dictionaries become association
lists from composite keys to recipe values, dict.update becomes append with
later bindings overriding earlier ones, and the process-wide name generator
becomes an explicit counter threaded through the call.
-/

set_option autoImplicit false

/-- A dask task key: a namespace string together with the two block indices,
mirroring the tuples `(name, i, j)` used throughout `qr`. -/
structure TaskKey where
  name : String
  i : Nat
  j : Nat
deriving DecidableEq

/-- A task recipe as stored in the dictionaries `qr` builds.  Constructors
correspond to the concrete tuples appearing in the source: `np.linalg.qr`
applied to one block, `operator.getitem` with an integer index, a getitem
with a pair of slices, the `_vstack` closure applied to a list of keys, and
`np.dot` of two blocks.  `leaf` stands for an arbitrary task of the input
array's own graph, whose recipes `qr` never inspects. -/
inductive Recipe where
  | npQr (src : TaskKey) : Recipe
  | getitem (src : TaskKey) (idx : Nat) : Recipe
  | getslice (src : TaskKey) (r0 r1 c0 c1 : Nat) : Recipe
  | vstack (args : List TaskKey) : Recipe
  | npDot (a b : TaskKey) : Recipe
  | leaf (tag : Nat) : Recipe
deriving DecidableEq

/-- A task dictionary.  Later bindings override earlier ones, reproducing the
semantics of the `dict.update` chains in the source. -/
abbrev Graph := List (TaskKey × Recipe)

/-- Dictionary lookup: the value of the last binding for the key, if any. -/
def lookupTask (g : Graph) (k : TaskKey) : Option Recipe :=
  (g.reverse.find? (fun e => decide (e.1 = k))).map (fun e => e.2)

/-- Whether a key is bound in the dictionary. -/
def hasTaskKey (g : Graph) (k : TaskKey) : Bool :=
  g.any (fun e => decide (e.1 = k))

/-- The task keys a recipe mentions among its arguments: the dependency
edges of the graph. -/
def taskDeps : Recipe → List TaskKey
  | Recipe.npQr src => [src]
  | Recipe.getitem src _ => [src]
  | Recipe.getslice src _ _ _ _ => [src]
  | Recipe.vstack args => args
  | Recipe.npDot a b => [a, b]
  | Recipe.leaf _ => []

/-- Row-major enumeration of a block grid, as `itertools.product` of the two
ranges yields it (and as `da.core.top` enumerates output blocks). -/
def prodRange (nb : Nat × Nat) : List (Nat × Nat) :=
  ((List.range nb.1).map (fun i => (List.range nb.2).map (fun j => (i, j)))).flatten

/-- The index list `[(i, 0) for i in xrange(nb0)]` used by the per-block
dictionaries that fix the column index at 0. -/
def colZero (nb0 : Nat) : List (Nat × Nat) :=
  (List.range nb0).map (fun i => (i, 0))

/-- A family of tasks sharing one namespace string, one task per listed block
index.  All dictionaries built by `qr` have this form. -/
def keyedDict (nm : String) (idx : List (Nat × Nat)) (f : Nat × Nat → Recipe) : Graph :=
  idx.map (fun ij => (⟨nm, ij.1, ij.2⟩, f ij))

/-- Ceiling division, embedding `int(ceil(float(a) / b))` from
`_findnumblocks` (exact for the integer arguments the code passes). -/
def div_ceil (a b : Nat) : Nat := (a + b - 1) / b

/-- Embedding of `_findnumblocks(shape, blockshape)`: elementwise ceiling
division over the zipped shapes. -/
def _findnumblocks (shape blockshape : List Nat) : List Nat :=
  (List.zip shape blockshape).map (fun t => div_ceil t.1 t.2)

/-- The input `dask.array` object as `qr` consumes it: its graph, its
namespace string, its global shape and its per-axis block extents
(`data.dask`, `data.name`, `data.shape`, `data.blockdims`). -/
structure DArray where
  dask : Graph
  name : String
  shape : List Nat
  blockdims : List (List Nat)
deriving DecidableEq

/-- Embedding of `data.ndim`: the number of axes of the shape. -/
def ndim (d : DArray) : Nat := d.shape.length

/-- Embedding of `blockshape = (data.blockdims[0][0], data.blockdims[1][0])`. -/
def blockshapeOf (data : DArray) : List Nat :=
  [(data.blockdims.getD 0 []).getD 0 0, (data.blockdims.getD 1 []).getD 0 0]

/-- Embedding of `numblocks = _findnumblocks(data.shape, blockshape)`,
projected to the pair of block counts the code indexes with `[0]` and `[1]`. -/
def qrNumblocks (data : DArray) : Nat × Nat :=
  let numblocks := _findnumblocks data.shape (blockshapeOf data)
  (numblocks.getD 0 0, numblocks.getD 1 0)

/-- Embedding of `dsk_qr_st1`: `da.core.top(np.linalg.qr, ...)` applies the
factorization blockwise, one task per block of the input. -/
def dsk_qr_st1 (p dname : String) (nb : Nat × Nat) : Graph :=
  keyedDict (p ++ "QR_st1") (prodRange nb) (fun ij => Recipe.npQr ⟨dname, ij.1, ij.2⟩)

/-- Embedding of `dsk_q_st1`: per row block, extract component 0 of the local
factorization pair. -/
def dsk_q_st1 (p : String) (nb0 : Nat) : Graph :=
  keyedDict (p ++ "Q_st1") (colZero nb0) (fun ij => Recipe.getitem ⟨p ++ "QR_st1", ij.1, 0⟩ 0)

/-- Embedding of `dsk_r_st1`: per row block, extract component 1 of the local
factorization pair. -/
def dsk_r_st1 (p : String) (nb0 : Nat) : Graph :=
  keyedDict (p ++ "R_st1") (colZero nb0) (fun ij => Recipe.getitem ⟨p ++ "QR_st1", ij.1, 0⟩ 1)

/-- Embedding of `to_stack`'s key part: the local triangular keys listed for
`i in xrange(numblocks[0])`, in that (ascending) order. -/
def stackArgs (p : String) (nb0 : Nat) : List TaskKey :=
  (List.range nb0).map (fun i => ⟨p ++ "R_st1", i, 0⟩)

/-- Embedding of `dsk_r_st1_stacked`: the single `_vstack` task. -/
def dsk_r_st1_stacked (p : String) (nb0 : Nat) : Graph :=
  keyedDict (p ++ "R_st1_stacked") [(0, 0)] (fun _ => Recipe.vstack (stackArgs p nb0))

/-- Embedding of `dsk_qr_st2`: the single global factorization task on the
stacked matrix (`top` over the one-block grid `(1, 1)`). -/
def dsk_qr_st2 (p : String) : Graph :=
  keyedDict (p ++ "QR_st2") [(0, 0)] (fun _ => Recipe.npQr ⟨p ++ "R_st1_stacked", 0, 0⟩)

/-- Embedding of `dsk_q_st2_aux`: extract component 0 (the global orthogonal
auxiliary) of the Stage2 factorization. -/
def dsk_q_st2_aux (p : String) : Graph :=
  keyedDict (p ++ "Q_st2_aux") [(0, 0)] (fun _ => Recipe.getitem ⟨p ++ "QR_st2", 0, 0⟩ 0)

/-- Embedding of `dsk_q_st2`: per block index `(i, j)` of the grid, slice the
row range `[i*n, (i+1)*n)` and column range `[j*n, (j+1)*n)` out of the
auxiliary (`zip(ijk, (n, n))` fixes both slice extents at `n`). -/
def dsk_q_st2 (p : String) (nb : Nat × Nat) (n : Nat) : Graph :=
  keyedDict (p ++ "Q_st2") (prodRange nb)
    (fun ij => Recipe.getslice ⟨p ++ "Q_st2_aux", 0, 0⟩ (ij.1 * n) ((ij.1 + 1) * n)
      (ij.2 * n) ((ij.2 + 1) * n))

/-- Embedding of `dsk_r_st2`: extract component 1 (the final triangular
factor) of the Stage2 factorization; its key carries the suffix `R`. -/
def dsk_r_st2 (p : String) : Graph :=
  keyedDict (p ++ "R") [(0, 0)] (fun _ => Recipe.getitem ⟨p ++ "QR_st2", 0, 0⟩ 1)

/-- Embedding of `dsk_q_st3`: blockwise `np.dot` of the local orthogonal
factor with the matching slice of the global auxiliary. -/
def dsk_q_st3 (p : String) (nb : Nat × Nat) : Graph :=
  keyedDict (p ++ "Q") (prodRange nb)
    (fun ij => Recipe.npDot ⟨p ++ "Q_st1", ij.1, ij.2⟩ ⟨p ++ "Q_st2", ij.1, ij.2⟩)

/-- An output handle, as built by `da.Array(dsk, name, shape, blockshape)`. -/
structure ResArray where
  dask : Graph
  name : String
  shape : List Nat
  blockshape : List Nat
deriving DecidableEq

/-- The per-axis block extents `da.Array` regenerates from a uniform
blockshape: full blocks of size `bs` followed by the ragged remainder. -/
def chunksOf (d bs : Nat) : List Nat :=
  List.replicate (d / bs) bs ++ (if d % bs = 0 then [] else [d % bs])

/-- Embedding of the `dict.update` chain building `dsk_q`: input graph
first, then every stage dictionary in source order; `pfx0` is the chosen
namespace before the trailing underscore is appended. -/
def dsk_q (data : DArray) (pfx0 : String) : Graph :=
  data.dask ++ dsk_qr_st1 (pfx0 ++ "_") data.name (qrNumblocks data)
    ++ dsk_q_st1 (pfx0 ++ "_") (qrNumblocks data).1
    ++ dsk_r_st1 (pfx0 ++ "_") (qrNumblocks data).1
    ++ dsk_r_st1_stacked (pfx0 ++ "_") (qrNumblocks data).1
    ++ dsk_qr_st2 (pfx0 ++ "_") ++ dsk_q_st2_aux (pfx0 ++ "_")
    ++ dsk_q_st2 (pfx0 ++ "_") (qrNumblocks data) (data.shape.getD 1 0)
    ++ dsk_q_st3 (pfx0 ++ "_") (qrNumblocks data)

/-- Embedding of the `dict.update` chain building `dsk_r`: input graph,
Stage1 local QR, Stage1 triangular extraction, stack, Stage2 QR, Stage2
triangular extraction. -/
def dsk_r (data : DArray) (pfx0 : String) : Graph :=
  data.dask ++ dsk_qr_st1 (pfx0 ++ "_") data.name (qrNumblocks data)
    ++ dsk_r_st1 (pfx0 ++ "_") (qrNumblocks data).1
    ++ dsk_r_st1_stacked (pfx0 ++ "_") (qrNumblocks data).1
    ++ dsk_qr_st2 (pfx0 ++ "_") ++ dsk_r_st2 (pfx0 ++ "_")

/-- The body of `qr` after validation and prefix choice: assembles the two
output handles `q` and `r` from the two graphs, with the shapes and
blockshapes the source passes to `da.Array`. -/
def qrBuild (data : DArray) (pfx0 : String) : ResArray × ResArray :=
  (⟨dsk_q data pfx0, (pfx0 ++ "_") ++ "Q", data.shape, blockshapeOf data⟩,
   ⟨dsk_r data pfx0, (pfx0 ++ "_") ++ "R",
    [data.shape.getD 1 0, data.shape.getD 1 0],
    [data.shape.getD 1 0, data.shape.getD 1 0]⟩)

/-- Little-endian decimal digits, with fuel for structural recursion. -/
def decDigitsAux : Nat → Nat → List Nat
  | 0, _ => []
  | fuel + 1, n => if n = 0 then [] else n % 10 :: decDigitsAux fuel (n / 10)

/-- Little-endian decimal digits of `n`. -/
def decDigits (n : Nat) : List Nat := decDigitsAux n n

/-- The character for one decimal digit. -/
def digitChar : Nat → Char
  | 0 => '0'
  | 1 => '1'
  | 2 => '2'
  | 3 => '3'
  | 4 => '4'
  | 5 => '5'
  | 6 => '6'
  | 7 => '7'
  | 8 => '8'
  | 9 => '9'
  | _ => '*'

/-- Decimal rendering of a natural number: the effect of the `%d` format. -/
def natRepr (n : Nat) : String :=
  if n = 0 then "0" else String.mk ((decDigits n).reverse.map digitChar)

/-- Embedding of the generator `names = ('tsqr_%d' % i for i in count(1))`:
the value produced when the counter reaches `k`. -/
def autoName (k : Nat) : String := "tsqr_" ++ natRepr k

/-- Embedding of `prefix = name or next(names)` together with the generator
state: a falsy name (absent or empty) draws the next auto name and advances
the counter, a non-empty name is used as given. -/
def drawName (nameArg : Option String) (c : Nat) : String × Nat :=
  match nameArg with
  | some s => if s = "" then (autoName (c + 1), c + 1) else (s, c)
  | none => (autoName (c + 1), c + 1)

/-- The message of the ValueError raised on a shape violation. -/
def shapeErrMsg : String :=
  "Input must have the following properites: 1. Have two dimensions 2. Have only one column of blocks"

/-- Embedding of `qr(data, name=None)`.  The process-wide counter behind
`names` is passed in and returned explicitly; the shape validation runs
before the prefix is drawn, exactly as in the source. -/
def qr (data : DArray) (nameArg : Option String) (c : Nat) :
    Except String (ResArray × ResArray) × Nat :=
  if ndim data = 2 ∧ (data.blockdims.getD 1 []).length = 1 then
    let pc := drawName nameArg c
    (Except.ok (qrBuild data pc.1), pc.2)
  else
    (Except.error shapeErrMsg, c)

/-- The validation predicate of `qr`: two axes and one column block. -/
def ValidInput (d : DArray) : Prop :=
  ndim d = 2 ∧ (d.blockdims.getD 1 []).length = 1

instance (d : DArray) : Decidable (ValidInput d) := by
  unfold ValidInput; infer_instance

/-- Structural invariants every real `dask.array` satisfies: two axes of
block extents, nonempty per axis, positive extents, summing to the shape. -/
def WellFormed (d : DArray) : Prop :=
  d.shape.length = 2 ∧ d.blockdims.length = 2 ∧
  (∀ l ∈ d.blockdims, l ≠ [] ∧ ∀ x ∈ l, 0 < x) ∧
  (d.blockdims.getD 0 []).sum = d.shape.getD 0 0 ∧
  (d.blockdims.getD 1 []).sum = d.shape.getD 1 0

instance (d : DArray) : Decidable (WellFormed d) := by
  unfold WellFormed; infer_instance

/-- All nine task dictionaries one call creates (everything `qr` spreads
over its two outputs), under the full prefix `pfx0 ++ "_"`. -/
def createdDicts (data : DArray) (pfx0 : String) : Graph :=
  let p := pfx0 ++ "_"
  let n := data.shape.getD 1 0
  let nb := qrNumblocks data
  dsk_qr_st1 p data.name nb ++ dsk_q_st1 p nb.1 ++ dsk_r_st1 p nb.1
    ++ dsk_r_st1_stacked p nb.1 ++ dsk_qr_st2 p ++ dsk_q_st2_aux p
    ++ dsk_q_st2 p nb n ++ dsk_r_st2 p ++ dsk_q_st3 p nb

/-- The keys of the tasks one call creates. -/
def createdKeys (data : DArray) (pfx0 : String) : List TaskKey :=
  (createdDicts data pfx0).map (fun e => e.1)

/-- The nine name suffixes appended to a call's prefix. -/
def suffixList : List String :=
  ["QR_st1", "Q_st1", "R_st1", "R_st1_stacked", "QR_st2", "Q_st2_aux", "Q_st2", "R", "Q"]

/-- Written from the spec sentence behind C7 (not from the source): the
triangular-factor graph as the claim enumerates it - the union of the input
graph, Stage1's triangular extraction tasks, and the Stage2 tasks (stack,
global QR, triangular extraction). -/
def c7ClaimedGraph (data : DArray) (pfx0 : String) : Graph :=
  let p := pfx0 ++ "_"
  let nb := qrNumblocks data
  data.dask ++ dsk_r_st1 p nb.1 ++ dsk_r_st1_stacked p nb.1 ++ dsk_qr_st2 p ++ dsk_r_st2 p

/-- Written from the spec sentence behind C8 (not from the source): the
orthogonal-factor graph as the claim enumerates it - the union of the input
graph and all Stage1, Stage2, Stage3 and Assembly task dictionaries, where
the Stage2 dictionaries comprise the stack task, the global QR task and the
extraction tasks of its two components (C7 places the triangular extraction
in Stage2). -/
def c8ClaimedGraph (data : DArray) (pfx0 : String) : Graph :=
  let p := pfx0 ++ "_"
  let n := data.shape.getD 1 0
  let nb := qrNumblocks data
  data.dask ++ dsk_qr_st1 p data.name nb ++ dsk_q_st1 p nb.1 ++ dsk_r_st1 p nb.1
    ++ dsk_r_st1_stacked p nb.1 ++ dsk_qr_st2 p ++ dsk_q_st2_aux p ++ dsk_r_st2 p
    ++ dsk_q_st2 p nb n ++ dsk_q_st3 p nb

/-- A concrete accepted input: one 2x2 block, namespace `x`, one leaf task. -/
def cexData : DArray :=
  { dask := [(⟨"x", 0, 0⟩, Recipe.leaf 0)]
    name := "x"
    shape := [2, 2]
    blockdims := [[2], [2]] }

/-- A concrete rejected input: one axis only. -/
def cexBadData : DArray :=
  { dask := [], name := "x", shape := [2], blockdims := [[2]] }

/-- The graph of the orthogonal output of a call, empty when rejected. -/
def resQGraph (x : Except String (ResArray × ResArray) × Nat) : Graph :=
  match x.1 with
  | Except.ok res => res.1.dask
  | Except.error _ => []

/-- The graph of the triangular output of a call, empty when rejected. -/
def resRGraph (x : Except String (ResArray × ResArray) × Nat) : Graph :=
  match x.1 with
  | Except.ok res => res.2.dask
  | Except.error _ => []

/-- Semantic content of the `_vstack` task over exact scalars: the local
triangular blocks stacked by ascending block index (row `(i, k)` of the
result is row `k` of block `i`). -/
def vstackBlocks (α : Type) (nb n : Nat) (R1 : Fin nb → Matrix (Fin n) (Fin n) α) :
    Matrix (Fin nb × Fin n) (Fin n) α :=
  Matrix.of (fun p j => R1 p.1 p.2 j)

/-- Semantic content of the Stage3 slice task for block `i`: the rows
`[i*n, (i+1)*n)` of the global orthogonal auxiliary. -/
def sliceBlock (α : Type) (nb n : Nat) (Q2 : Matrix (Fin nb × Fin n) (Fin n) α)
    (i : Fin nb) : Matrix (Fin n) (Fin n) α :=
  Matrix.of (fun k j => Q2 (i, k) j)

/-- Concatenation of the per-block assembly outputs by ascending block
index, over the dependent row type (block `i` contributes `r i` rows). -/
def concatBlocks (α : Type) (nb n : Nat) (r : Fin nb → Nat)
    (F : (i : Fin nb) → Matrix (Fin (r i)) (Fin n) α) :
    Matrix ((i : Fin nb) × Fin (r i)) (Fin n) α :=
  Matrix.of (fun p j => F p.1 p.2 j)

/- ======================= arithmetic helpers ======================= -/

/-- The defining property of ceiling division: `div_ceil m br * br` is the
least multiple of `br` that reaches `m`. -/
lemma div_ceil_spec (m br : Nat) (hbr : 0 < br) :
    m ≤ div_ceil m br * br ∧ div_ceil m br * br < m + br := by
  have h1 := Nat.div_add_mod (m + br - 1) br
  have h2 : (m + br - 1) % br < br := Nat.mod_lt _ hbr
  unfold div_ceil
  rw [Nat.mul_comm ((m + br - 1) / br) br]
  obtain ⟨t, ht⟩ : ∃ t, br * ((m + br - 1) / br) = t := ⟨_, rfl⟩
  rw [ht] at h1 ⊢
  obtain ⟨rmd, hr⟩ : ∃ r, (m + br - 1) % br = r := ⟨_, rfl⟩
  rw [hr] at h1 h2
  omega

/-- Canonical shape of an accepted wellformed input: shape `[m, n]`, one
column block of width `n`, first row block of positive height `br`. -/
lemma input_structure (data : DArray) (hv : ValidInput data) (hw : WellFormed data) :
    ∃ m n br tl, data.shape = [m, n] ∧ data.blockdims = [br :: tl, [n]] ∧
      0 < br ∧ 0 < n ∧ (br :: tl).sum = m := by
  obtain ⟨hlen2, hbd2, hpos, hsum0, hsum1⟩ := hw
  obtain ⟨m, n, hs⟩ := List.length_eq_two.mp hlen2
  obtain ⟨l0, l1, hb⟩ := List.length_eq_two.mp hbd2
  have h1 : (data.blockdims.getD 1 []).length = 1 := hv.2
  rw [hb] at h1
  have h1' : l1.length = 1 := h1
  obtain ⟨bc, hbc⟩ := List.length_eq_one.mp h1'
  have hsum1' : l1.sum = n := by
    rw [hb, hs] at hsum1
    exact hsum1
  have hbcn : bc = n := by
    rw [hbc] at hsum1'
    simpa using hsum1'
  have hl0 : l0 ≠ [] ∧ ∀ x ∈ l0, 0 < x := hpos l0 (by rw [hb]; simp)
  obtain ⟨br, tl, hl0e⟩ : ∃ br tl, l0 = br :: tl := by
    cases l0 with
    | nil => exact absurd rfl hl0.1
    | cons a t => exact ⟨a, t, rfl⟩
  have hbr : 0 < br := hl0.2 br (by rw [hl0e]; simp)
  have hn : 0 < n := by
    have := (hpos l1 (by rw [hb]; simp)).2 bc (by rw [hbc]; simp)
    omega
  have hsum0' : (br :: tl).sum = m := by
    rw [hb, hs] at hsum0
    rw [← hl0e]
    exact hsum0
  exact ⟨m, n, br, tl, hs, by rw [hb, hl0e, hbc, hbcn], hbr, hn, hsum0'⟩

/-- Evaluation of the block grid on a canonical input. -/
lemma qrNumblocks_eval (data : DArray) (m n br : Nat) (tl : List Nat)
    (hs : data.shape = [m, n]) (hb : data.blockdims = [br :: tl, [n]]) (hn : 0 < n) :
    qrNumblocks data = (div_ceil m br, 1) := by
  have h0 : qrNumblocks data = (div_ceil m br, div_ceil n n) := by
    unfold qrNumblocks blockshapeOf _findnumblocks
    rw [hs, hb]
    rfl
  rw [h0]
  have h2 : div_ceil n n = 1 := by
    unfold div_ceil
    exact Nat.div_eq_of_lt_le (by omega) (by omega)
  rw [h2]

/- ======================= theorems for C2, C3, C10 ======================= -/

/-- C2: an input that is not two-dimensional, or whose second axis is split
into more than one block, is rejected by `qr` with the ValueError: the call
returns the error (and therefore no handles and no graph), the validation
running before any dictionary is built. -/
theorem qr_rejects_bad_shape (data : DArray) (nameArg : Option String) (c : Nat)
    (h : ndim data ≠ 2 ∨ 1 < (data.blockdims.getD 1 []).length) :
    (qr data nameArg c).1 = Except.error shapeErrMsg := by
  have hnot : ¬(ndim data = 2 ∧ (data.blockdims.getD 1 []).length = 1) := by
    rcases h with h | h
    · exact fun hc => h hc.1
    · exact fun hc => absurd hc.2 (by omega)
  unfold qr
  rw [if_neg hnot]

/-- Witness for C2 at a one-dimensional input. -/
theorem qr_rejects_bad_shape_witness :
    (qr cexBadData none 0).1 = Except.error shapeErrMsg :=
  qr_rejects_bad_shape cexBadData none 0 (Or.inl (by decide))

/-- C3: for every accepted wellformed input, the block grid used to build
every per-block task family is `(ceil(m / br), 1)`: the row-block count is
the least number of height-`br` blocks covering the `m` rows, and the
column-block count is 1. -/
theorem qr_numblocks_law (data : DArray) (hv : ValidInput data) (hw : WellFormed data) :
    data.shape.getD 0 0 ≤ (qrNumblocks data).1 * (data.blockdims.getD 0 []).getD 0 0 ∧
    (qrNumblocks data).1 * (data.blockdims.getD 0 []).getD 0 0
      < data.shape.getD 0 0 + (data.blockdims.getD 0 []).getD 0 0 ∧
    (qrNumblocks data).2 = 1 := by
  obtain ⟨m, n, br, tl, hs, hb, hbr, hn, hsum⟩ := input_structure data hv hw
  have he := qrNumblocks_eval data m n br tl hs hb hn
  rw [he, hs, hb]
  have hd := div_ceil_spec m br hbr
  exact ⟨hd.1, hd.2, rfl⟩

/-- Witness for C3 at a concrete 2x2 single-block input. -/
theorem qr_numblocks_law_witness :
    (2 : Nat) ≤ (qrNumblocks cexData).1 * 2 ∧ (qrNumblocks cexData).1 * 2 < 2 + 2 ∧
      (qrNumblocks cexData).2 = 1 :=
  qr_numblocks_law cexData (by decide) (by decide)

/-- C10: a call rejected for its shape leaves the process-wide name counter
unchanged (the validation precedes the draw from the generator), so any
subsequent call starting from the resulting counter behaves exactly as it
would have without the failed call. -/
theorem qr_reject_preserves_counter (data : DArray) (nameArg : Option String) (c : Nat)
    (h : ¬ ValidInput data) :
    (qr data nameArg c).2 = c ∧
      ∀ (d2 : DArray) (na2 : Option String),
        qr d2 na2 ((qr data nameArg c).2) = qr d2 na2 c := by
  unfold ValidInput at h
  have h2 : (qr data nameArg c).2 = c := by
    unfold qr
    rw [if_neg h]
  exact ⟨h2, fun d2 na2 => by rw [h2]⟩

/-- Witness for C10: the failed call keeps the counter at 5 and the next
call is unaffected. -/
theorem qr_reject_preserves_counter_witness :
    (qr cexBadData none 5).2 = 5 ∧
      qr cexData none ((qr cexBadData none 5).2) = qr cexData none 5 :=
  ⟨(qr_reject_preserves_counter cexBadData none 5 (by decide)).1,
   (qr_reject_preserves_counter cexBadData none 5 (by decide)).2 cexData none⟩

/- ======================= graph lookup lemmas ======================= -/

/-- Lookup skips an appended dictionary that does not bind the key. -/
lemma lookupTask_append_none (g1 g2 : Graph) (k : TaskKey)
    (h : lookupTask g2 k = none) :
    lookupTask (g1 ++ g2) k = lookupTask g1 k := by
  unfold lookupTask at h ⊢
  have h2 : g2.reverse.find? (fun e => decide (e.1 = k)) = none := by
    cases hf : g2.reverse.find? (fun e => decide (e.1 = k)) with
    | none => rfl
    | some e => rw [hf] at h; simp at h
  rw [List.reverse_append, List.find?_append, h2]
  simp

/-- Lookup lands in the appended dictionary when it binds the key (later
bindings override earlier ones). -/
lemma lookupTask_append_some (g1 g2 : Graph) (k : TaskKey) (t : Recipe)
    (h : lookupTask g2 k = some t) :
    lookupTask (g1 ++ g2) k = some t := by
  unfold lookupTask at h ⊢
  obtain ⟨e, he, hm⟩ : ∃ e, g2.reverse.find? (fun e => decide (e.1 = k)) = some e ∧ e.2 = t := by
    cases hf : g2.reverse.find? (fun e => decide (e.1 = k)) with
    | none => rw [hf] at h; simp at h
    | some e =>
      rw [hf] at h
      simp at h
      exact ⟨e, rfl, h⟩
  rw [List.reverse_append, List.find?_append, he]
  simp [hm]

/-- A keyed family binds no key with a different namespace string. -/
lemma lookupTask_keyedDict_ne (nm : String) (idx : List (Nat × Nat))
    (f : Nat × Nat → Recipe) (k : TaskKey) (h : k.name ≠ nm) :
    lookupTask (keyedDict nm idx f) k = none := by
  unfold lookupTask keyedDict
  rw [Option.map_eq_none', List.find?_eq_none]
  intro e he
  rw [List.mem_reverse, List.mem_map] at he
  obtain ⟨ij, _, rfl⟩ := he
  simp only [decide_eq_true_eq]
  intro hk
  apply h
  rw [← hk]

/-- Lookup of a listed block index in a keyed family. -/
lemma lookupTask_keyedDict_mem (nm : String) (idx : List (Nat × Nat))
    (f : Nat × Nat → Recipe) (i j : Nat) (hmem : (i, j) ∈ idx) :
    lookupTask (keyedDict nm idx f) ⟨nm, i, j⟩ = some (f (i, j)) := by
  unfold lookupTask
  cases hf : (keyedDict nm idx f).reverse.find? (fun e => decide (e.1 = ⟨nm, i, j⟩)) with
  | none =>
    exfalso
    have hall := List.find?_eq_none.mp hf (⟨nm, i, j⟩, f (i, j)) ?_
    · simp at hall
    · rw [List.mem_reverse]
      unfold keyedDict
      rw [List.mem_map]
      exact ⟨(i, j), hmem, rfl⟩
  | some e =>
    have hmem2 := List.mem_of_find?_eq_some hf
    have hpred := List.find?_some hf
    rw [List.mem_reverse] at hmem2
    unfold keyedDict at hmem2
    rw [List.mem_map] at hmem2
    obtain ⟨ij, _, rfl⟩ := hmem2
    simp only [decide_eq_true_eq] at hpred
    have hi : ij.1 = i := congrArg TaskKey.i hpred
    have hj : ij.2 = j := congrArg TaskKey.j hpred
    simp only [Option.map_some']
    rw [show ij = (i, j) from by rw [← hi, ← hj]]

/-- Namespace strings with different suffixes under a common prefix differ,
so one skip step crosses a whole keyed family. -/
lemma lookup_skip {g1 : Graph} {p a b : String} {idx : List (Nat × Nat)}
    {f : Nat × Nat → Recipe} {i j : Nat} (h : ¬ a.data = b.data) :
    lookupTask (g1 ++ keyedDict (p ++ b) idx f) ⟨p ++ a, i, j⟩
      = lookupTask g1 ⟨p ++ a, i, j⟩ := by
  apply lookupTask_append_none
  apply lookupTask_keyedDict_ne
  intro he
  apply h
  have hd : (p ++ a).data = (p ++ b).data := congrArg String.data he
  rw [String.data_append, String.data_append] at hd
  exact List.append_cancel_left hd

/-- Membership in a row-block index list. -/
lemma mem_colZero (i j nb0 : Nat) : (i, j) ∈ colZero nb0 ↔ i < nb0 ∧ j = 0 := by
  unfold colZero
  rw [List.mem_map]
  constructor
  · rintro ⟨x, hx, he⟩
    rw [List.mem_range] at hx
    have h1 : x = i := congrArg Prod.fst he
    have h2 : (0 : Nat) = j := congrArg Prod.snd he
    exact ⟨h1 ▸ hx, h2.symm⟩
  · rintro ⟨hi, rfl⟩
    exact ⟨i, List.mem_range.mpr hi, rfl⟩

/-- Membership in the full block grid enumeration. -/
lemma mem_prodRange (i j : Nat) (nb : Nat × Nat) :
    (i, j) ∈ prodRange nb ↔ i < nb.1 ∧ j < nb.2 := by
  unfold prodRange
  rw [List.mem_flatten]
  constructor
  · rintro ⟨l, hl, hm⟩
    rw [List.mem_map] at hl
    obtain ⟨x, hx, rfl⟩ := hl
    rw [List.mem_range] at hx
    rw [List.mem_map] at hm
    obtain ⟨y, hy, he⟩ := hm
    rw [List.mem_range] at hy
    have h1 : x = i := congrArg Prod.fst he
    have h2 : y = j := congrArg Prod.snd he
    exact ⟨h1 ▸ hx, h2 ▸ hy⟩
  · rintro ⟨hi, hj⟩
    refine ⟨(List.range nb.2).map (fun y => (i, y)), ?_, ?_⟩
    · rw [List.mem_map]
      exact ⟨i, List.mem_range.mpr hi, rfl⟩
    · rw [List.mem_map]
      exact ⟨j, List.mem_range.mpr hj, rfl⟩

/- ======================= the stack task (C4) ======================= -/

/-- The stack task bound in the orthogonal output graph. -/
lemma lookup_dskq_stacked (data : DArray) (pfx0 : String) :
    lookupTask (dsk_q data pfx0) ⟨(pfx0 ++ "_") ++ "R_st1_stacked", 0, 0⟩
      = some (Recipe.vstack (stackArgs (pfx0 ++ "_") (qrNumblocks data).1)) := by
  unfold dsk_q dsk_q_st3 dsk_q_st2 dsk_q_st2_aux dsk_qr_st2 dsk_r_st1_stacked
  rw [lookup_skip (by decide), lookup_skip (by decide), lookup_skip (by decide),
    lookup_skip (by decide)]
  exact lookupTask_append_some _ _ _ _ (lookupTask_keyedDict_mem _ _ _ 0 0 (by simp))

/-- The stack task bound in the triangular output graph. -/
lemma lookup_dskr_stacked (data : DArray) (pfx0 : String) :
    lookupTask (dsk_r data pfx0) ⟨(pfx0 ++ "_") ++ "R_st1_stacked", 0, 0⟩
      = some (Recipe.vstack (stackArgs (pfx0 ++ "_") (qrNumblocks data).1)) := by
  unfold dsk_r dsk_r_st2 dsk_qr_st2 dsk_r_st1_stacked
  rw [lookup_skip (by decide), lookup_skip (by decide)]
  exact lookupTask_append_some _ _ _ _ (lookupTask_keyedDict_mem _ _ _ 0 0 (by simp))

/-- The stack argument list has one entry per row block. -/
lemma stackArgs_length (p : String) (nb0 : Nat) : (stackArgs p nb0).length = nb0 := by
  unfold stackArgs
  simp

/-- Position `i` of the stack argument list is the local triangular key of
row block `i`. -/
lemma stackArgs_getD (p : String) (nb0 i : Nat) (h : i < nb0) :
    (stackArgs p nb0).getD i ⟨"", 0, 0⟩ = ⟨p ++ "R_st1", i, 0⟩ := by
  unfold stackArgs
  rw [List.getD_eq_getElem?_getD, List.getElem?_map, List.getElem?_range h]
  rfl

/-- C4: in both returned graphs the single Stage2 stack task's argument
list contains exactly the local-triangular task keys of every row block in
ascending block order: its length is the row-block count and position `i`
holds block `i`'s key. -/
theorem qr_stack_args_ascending (data : DArray) (pfx0 : String)
    (hv : ValidInput data) (hw : WellFormed data) :
    lookupTask (qrBuild data pfx0).1.dask ⟨(pfx0 ++ "_") ++ "R_st1_stacked", 0, 0⟩
        = some (Recipe.vstack (stackArgs (pfx0 ++ "_") (qrNumblocks data).1)) ∧
    lookupTask (qrBuild data pfx0).2.dask ⟨(pfx0 ++ "_") ++ "R_st1_stacked", 0, 0⟩
        = some (Recipe.vstack (stackArgs (pfx0 ++ "_") (qrNumblocks data).1)) ∧
    (stackArgs (pfx0 ++ "_") (qrNumblocks data).1).length = (qrNumblocks data).1 ∧
    ∀ i, i < (qrNumblocks data).1 →
      (stackArgs (pfx0 ++ "_") (qrNumblocks data).1).getD i ⟨"", 0, 0⟩
        = ⟨(pfx0 ++ "_") ++ "R_st1", i, 0⟩ :=
  ⟨lookup_dskq_stacked data pfx0, lookup_dskr_stacked data pfx0,
   stackArgs_length (pfx0 ++ "_") (qrNumblocks data).1,
   fun i hi => stackArgs_getD (pfx0 ++ "_") (qrNumblocks data).1 i hi⟩

/-- Witness for C4 on the concrete 2x2 input under the name `w`. -/
theorem qr_stack_args_ascending_witness :
    (stackArgs ("w" ++ "_") (qrNumblocks cexData).1).length = (qrNumblocks cexData).1 ∧
    (stackArgs ("w" ++ "_") (qrNumblocks cexData).1).getD 0 ⟨"", 0, 0⟩
      = ⟨("w" ++ "_") ++ "R_st1", 0, 0⟩ :=
  ⟨(qr_stack_args_ascending cexData "w" (by decide) (by decide)).2.2.1,
   (qr_stack_args_ascending cexData "w" (by decide) (by decide)).2.2.2 0 (by decide)⟩

/- ======================= slice tasks (C5) ======================= -/

/-- The column-block count of an accepted wellformed input is 1. -/
lemma qrNumblocks_snd (data : DArray) (hv : ValidInput data) (hw : WellFormed data) :
    (qrNumblocks data).2 = 1 := by
  obtain ⟨m, n, br, tl, hs, hb, hbr, hn, hsum⟩ := input_structure data hv hw
  rw [qrNumblocks_eval data m n br tl hs hb hn]

/-- The column count of an accepted wellformed input is positive. -/
lemma shape_n_pos (data : DArray) (hv : ValidInput data) (hw : WellFormed data) :
    0 < data.shape.getD 1 0 := by
  obtain ⟨m, n, br, tl, hs, hb, hbr, hn, hsum⟩ := input_structure data hv hw
  rw [hs]
  exact hn

/-- The slice task of block `(i, j)` bound in the orthogonal output graph. -/
lemma lookup_dskq_q_st2 (data : DArray) (pfx0 : String) (i j : Nat)
    (hi : i < (qrNumblocks data).1) (hj : j < (qrNumblocks data).2) :
    lookupTask (dsk_q data pfx0) ⟨(pfx0 ++ "_") ++ "Q_st2", i, j⟩
      = some (Recipe.getslice ⟨(pfx0 ++ "_") ++ "Q_st2_aux", 0, 0⟩
          (i * data.shape.getD 1 0) ((i + 1) * data.shape.getD 1 0)
          (j * data.shape.getD 1 0) ((j + 1) * data.shape.getD 1 0)) := by
  unfold dsk_q dsk_q_st3 dsk_q_st2
  rw [lookup_skip (by decide)]
  exact lookupTask_append_some _ _ _ _
    (lookupTask_keyedDict_mem _ _ _ i j ((mem_prodRange i j _).mpr ⟨hi, hj⟩))

/-- Two distinct `n`-row slices never contain a common row. -/
lemma slice_ranges_disjoint (n i1 i2 x : Nat) (hne : i1 ≠ i2) :
    ¬(i1 * n ≤ x ∧ x < (i1 + 1) * n ∧ i2 * n ≤ x ∧ x < (i2 + 1) * n) := by
  rintro ⟨h1, h2, h3, h4⟩
  rcases Nat.lt_or_ge i1 i2 with h | h
  · have hle : (i1 + 1) * n ≤ i2 * n := Nat.mul_le_mul_right _ h
    omega
  · have h' : i2 + 1 ≤ i1 := by omega
    have hle : (i2 + 1) * n ≤ i1 * n := Nat.mul_le_mul_right _ h'
    omega

/-- The `nb0` slices of height `n` exactly cover the `nb0 * n` rows. -/
lemma slice_ranges_cover (n nb0 x : Nat) (hn : 0 < n) :
    x < nb0 * n ↔ ∃ i, i < nb0 ∧ i * n ≤ x ∧ x < (i + 1) * n := by
  constructor
  · intro hx
    refine ⟨x / n, (Nat.div_lt_iff_lt_mul hn).mpr hx, Nat.div_mul_le_self x n, ?_⟩
    have h1 := Nat.div_add_mod x n
    have h2 : x % n < n := Nat.mod_lt _ hn
    rw [Nat.add_mul, Nat.one_mul, Nat.mul_comm]
    obtain ⟨t, ht⟩ : ∃ t, n * (x / n) = t := ⟨_, rfl⟩
    rw [ht] at h1 ⊢
    obtain ⟨r2, hr⟩ : ∃ r, x % n = r := ⟨_, rfl⟩
    rw [hr] at h1 h2
    omega
  · rintro ⟨i, hi, _, h2⟩
    have hle : (i + 1) * n ≤ nb0 * n := Nat.mul_le_mul_right _ hi
    omega

/-- C5: for every accepted wellformed input, the Stage3 slice task of row
block `i` extracts exactly the rows `[i*n, (i+1)*n)` (and the single column
range `[0, n)`) of the global orthogonal auxiliary; the row ranges of
distinct blocks are disjoint, and together they cover exactly the
`nblocks * n` rows of the auxiliary. -/
theorem qr_slice_partition (data : DArray) (pfx0 : String)
    (hv : ValidInput data) (hw : WellFormed data) :
    (∀ i, i < (qrNumblocks data).1 →
      lookupTask (qrBuild data pfx0).1.dask ⟨(pfx0 ++ "_") ++ "Q_st2", i, 0⟩
        = some (Recipe.getslice ⟨(pfx0 ++ "_") ++ "Q_st2_aux", 0, 0⟩
            (i * data.shape.getD 1 0) ((i + 1) * data.shape.getD 1 0)
            (0 * data.shape.getD 1 0) ((0 + 1) * data.shape.getD 1 0))) ∧
    (∀ i1 i2 x, i1 ≠ i2 →
      ¬(i1 * data.shape.getD 1 0 ≤ x ∧ x < (i1 + 1) * data.shape.getD 1 0 ∧
        i2 * data.shape.getD 1 0 ≤ x ∧ x < (i2 + 1) * data.shape.getD 1 0)) ∧
    (∀ x, x < (qrNumblocks data).1 * data.shape.getD 1 0 ↔
      ∃ i, i < (qrNumblocks data).1 ∧ i * data.shape.getD 1 0 ≤ x ∧
        x < (i + 1) * data.shape.getD 1 0) := by
  refine ⟨?_, ?_, ?_⟩
  · intro i hi
    exact lookup_dskq_q_st2 data pfx0 i 0 hi (by rw [qrNumblocks_snd data hv hw]; omega)
  · intro i1 i2 x hne
    exact slice_ranges_disjoint _ i1 i2 x hne
  · intro x
    exact slice_ranges_cover _ _ x (shape_n_pos data hv hw)

/-- Witness for C5 on the concrete 2x2 input under the name `w`. -/
theorem qr_slice_partition_witness :
    lookupTask (qrBuild cexData "w").1.dask ⟨("w" ++ "_") ++ "Q_st2", 0, 0⟩
      = some (Recipe.getslice ⟨("w" ++ "_") ++ "Q_st2_aux", 0, 0⟩
          (0 * cexData.shape.getD 1 0) ((0 + 1) * cexData.shape.getD 1 0)
          (0 * cexData.shape.getD 1 0) ((0 + 1) * cexData.shape.getD 1 0)) ∧
    (1 < (qrNumblocks cexData).1 * cexData.shape.getD 1 0 ↔
      ∃ i, i < (qrNumblocks cexData).1 ∧ i * cexData.shape.getD 1 0 ≤ 1 ∧
        1 < (i + 1) * cexData.shape.getD 1 0) :=
  ⟨(qr_slice_partition cexData "w" (by decide) (by decide)).1 0 (by decide),
   (qr_slice_partition cexData "w" (by decide) (by decide)).2.2 1⟩

/- ======================= Stage1 locality (C6) ======================= -/

/-- The local QR task of block `(i, j)` in the orthogonal output graph. -/
lemma lookup_dskq_qr_st1 (data : DArray) (pfx0 : String) (i j : Nat)
    (hi : i < (qrNumblocks data).1) (hj : j < (qrNumblocks data).2) :
    lookupTask (dsk_q data pfx0) ⟨(pfx0 ++ "_") ++ "QR_st1", i, j⟩
      = some (Recipe.npQr ⟨data.name, i, j⟩) := by
  unfold dsk_q dsk_q_st3 dsk_q_st2 dsk_q_st2_aux dsk_qr_st2 dsk_r_st1_stacked
    dsk_r_st1 dsk_q_st1 dsk_qr_st1
  rw [lookup_skip (by decide), lookup_skip (by decide), lookup_skip (by decide),
    lookup_skip (by decide), lookup_skip (by decide), lookup_skip (by decide),
    lookup_skip (by decide)]
  exact lookupTask_append_some _ _ _ _
    (lookupTask_keyedDict_mem _ _ _ i j ((mem_prodRange i j _).mpr ⟨hi, hj⟩))

/-- The local orthogonal extraction task of block `i`. -/
lemma lookup_dskq_q_st1 (data : DArray) (pfx0 : String) (i : Nat)
    (hi : i < (qrNumblocks data).1) :
    lookupTask (dsk_q data pfx0) ⟨(pfx0 ++ "_") ++ "Q_st1", i, 0⟩
      = some (Recipe.getitem ⟨(pfx0 ++ "_") ++ "QR_st1", i, 0⟩ 0) := by
  unfold dsk_q dsk_q_st3 dsk_q_st2 dsk_q_st2_aux dsk_qr_st2 dsk_r_st1_stacked
    dsk_r_st1 dsk_q_st1
  rw [lookup_skip (by decide), lookup_skip (by decide), lookup_skip (by decide),
    lookup_skip (by decide), lookup_skip (by decide), lookup_skip (by decide)]
  exact lookupTask_append_some _ _ _ _
    (lookupTask_keyedDict_mem _ _ _ i 0 ((mem_colZero i 0 _).mpr ⟨hi, rfl⟩))

/-- The local triangular extraction task of block `i`. -/
lemma lookup_dskq_r_st1 (data : DArray) (pfx0 : String) (i : Nat)
    (hi : i < (qrNumblocks data).1) :
    lookupTask (dsk_q data pfx0) ⟨(pfx0 ++ "_") ++ "R_st1", i, 0⟩
      = some (Recipe.getitem ⟨(pfx0 ++ "_") ++ "QR_st1", i, 0⟩ 1) := by
  unfold dsk_q dsk_q_st3 dsk_q_st2 dsk_q_st2_aux dsk_qr_st2 dsk_r_st1_stacked
    dsk_r_st1
  rw [lookup_skip (by decide), lookup_skip (by decide), lookup_skip (by decide),
    lookup_skip (by decide), lookup_skip (by decide)]
  exact lookupTask_append_some _ _ _ _
    (lookupTask_keyedDict_mem _ _ _ i 0 ((mem_colZero i 0 _).mpr ⟨hi, rfl⟩))

/-- C6: for every accepted wellformed input and every row block `i`, the
three Stage1 tasks of block `i` are bound to the expected recipes, and
every dependency of any of them is a key with row index `i`, naming either
the input's block `i` or block `i`'s own local QR task: Stage1 carries no
cross-block edge. -/
theorem qr_stage1_block_local (data : DArray) (pfx0 : String)
    (hv : ValidInput data) (hw : WellFormed data) :
    ∀ i, i < (qrNumblocks data).1 →
      (lookupTask (qrBuild data pfx0).1.dask ⟨(pfx0 ++ "_") ++ "QR_st1", i, 0⟩
          = some (Recipe.npQr ⟨data.name, i, 0⟩)) ∧
      (lookupTask (qrBuild data pfx0).1.dask ⟨(pfx0 ++ "_") ++ "Q_st1", i, 0⟩
          = some (Recipe.getitem ⟨(pfx0 ++ "_") ++ "QR_st1", i, 0⟩ 0)) ∧
      (lookupTask (qrBuild data pfx0).1.dask ⟨(pfx0 ++ "_") ++ "R_st1", i, 0⟩
          = some (Recipe.getitem ⟨(pfx0 ++ "_") ++ "QR_st1", i, 0⟩ 1)) ∧
      ∀ t : Recipe,
        (lookupTask (qrBuild data pfx0).1.dask ⟨(pfx0 ++ "_") ++ "QR_st1", i, 0⟩ = some t ∨
         lookupTask (qrBuild data pfx0).1.dask ⟨(pfx0 ++ "_") ++ "Q_st1", i, 0⟩ = some t ∨
         lookupTask (qrBuild data pfx0).1.dask ⟨(pfx0 ++ "_") ++ "R_st1", i, 0⟩ = some t) →
        ∀ d ∈ taskDeps t, d.i = i ∧ (d.name = data.name ∨ d.name = (pfx0 ++ "_") ++ "QR_st1") := by
  intro i hi
  have hj : 0 < (qrNumblocks data).2 := by rw [qrNumblocks_snd data hv hw]; omega
  have h1 := lookup_dskq_qr_st1 data pfx0 i 0 hi hj
  have h2 := lookup_dskq_q_st1 data pfx0 i hi
  have h3 := lookup_dskq_r_st1 data pfx0 i hi
  refine ⟨h1, h2, h3, ?_⟩
  intro t ht d hd
  rcases ht with ht | ht | ht
  · have hc : some (Recipe.npQr ⟨data.name, i, 0⟩) = some t := h1.symm.trans ht
    have he : Recipe.npQr ⟨data.name, i, 0⟩ = t := by injection hc
    rw [← he] at hd
    unfold taskDeps at hd
    rw [List.mem_singleton] at hd
    rw [hd]
    exact ⟨rfl, Or.inl rfl⟩
  · have hc : some (Recipe.getitem ⟨(pfx0 ++ "_") ++ "QR_st1", i, 0⟩ 0) = some t :=
      h2.symm.trans ht
    have he : Recipe.getitem ⟨(pfx0 ++ "_") ++ "QR_st1", i, 0⟩ 0 = t := by injection hc
    rw [← he] at hd
    unfold taskDeps at hd
    rw [List.mem_singleton] at hd
    rw [hd]
    exact ⟨rfl, Or.inr rfl⟩
  · have hc : some (Recipe.getitem ⟨(pfx0 ++ "_") ++ "QR_st1", i, 0⟩ 1) = some t :=
      h3.symm.trans ht
    have he : Recipe.getitem ⟨(pfx0 ++ "_") ++ "QR_st1", i, 0⟩ 1 = t := by injection hc
    rw [← he] at hd
    unfold taskDeps at hd
    rw [List.mem_singleton] at hd
    rw [hd]
    exact ⟨rfl, Or.inr rfl⟩

/-- Witness for C6 on the concrete 2x2 input under the name `w`. -/
theorem qr_stage1_block_local_witness :
    lookupTask (qrBuild cexData "w").1.dask ⟨("w" ++ "_") ++ "QR_st1", 0, 0⟩
      = some (Recipe.npQr ⟨cexData.name, 0, 0⟩) :=
  (qr_stage1_block_local cexData "w" (by decide) (by decide) 0 (by decide)).1

/- ======================= output graphs (C7, C8) ======================= -/

/-- Key membership distributes over the dictionary update chain. -/
lemma hasTaskKey_append (g1 g2 : Graph) (k : TaskKey) :
    hasTaskKey (g1 ++ g2) k = (hasTaskKey g1 k || hasTaskKey g2 k) := by
  unfold hasTaskKey
  exact List.any_append

/-- A keyed family contains no key with a different namespace string. -/
lemma hasTaskKey_keyedDict_ne (nm : String) (idx : List (Nat × Nat))
    (f : Nat × Nat → Recipe) (k : TaskKey) (h : k.name ≠ nm) :
    hasTaskKey (keyedDict nm idx f) k = false := by
  unfold hasTaskKey keyedDict
  rw [List.any_eq_false]
  intro e he
  rw [List.mem_map] at he
  obtain ⟨ij, _, rfl⟩ := he
  simp only [decide_eq_true_eq]
  intro hk
  exact h (by rw [← hk])

/-- Suffix form of the previous lemma, dischargeable by computation. -/
lemma hasKey_skip {p a b : String} {idx : List (Nat × Nat)} {f : Nat × Nat → Recipe}
    {i j : Nat} (h : ¬ a.data = b.data) :
    hasTaskKey (keyedDict (p ++ b) idx f) ⟨p ++ a, i, j⟩ = false := by
  apply hasTaskKey_keyedDict_ne
  intro he
  apply h
  have hd : (p ++ a).data = (p ++ b).data := congrArg String.data he
  rw [String.data_append, String.data_append] at hd
  exact List.append_cancel_left hd

/-- C7 (amended): the triangular handle's graph is the union of the input
graph, Stage1's local-QR tasks, Stage1's triangular extraction tasks, and
the Stage2 tasks (stack, global QR, triangular extraction) - the claim's
enumeration amended by the Stage1 local-QR dictionary, which the code also
merges into this graph; the handle has shape `(n, n)` and its blockshape
`(n, n)` yields a single block per axis. -/
theorem qr_r_graph_amended (data : DArray) (pfx0 : String)
    (hv : ValidInput data) (hw : WellFormed data) :
    (∀ k, hasTaskKey (qrBuild data pfx0).2.dask k =
      (hasTaskKey data.dask k
        || hasTaskKey (dsk_qr_st1 (pfx0 ++ "_") data.name (qrNumblocks data)) k
        || hasTaskKey (dsk_r_st1 (pfx0 ++ "_") (qrNumblocks data).1) k
        || hasTaskKey (dsk_r_st1_stacked (pfx0 ++ "_") (qrNumblocks data).1) k
        || hasTaskKey (dsk_qr_st2 (pfx0 ++ "_")) k
        || hasTaskKey (dsk_r_st2 (pfx0 ++ "_")) k)) ∧
    (qrBuild data pfx0).2.shape = [data.shape.getD 1 0, data.shape.getD 1 0] ∧
    (qrBuild data pfx0).2.blockshape = [data.shape.getD 1 0, data.shape.getD 1 0] ∧
    chunksOf (data.shape.getD 1 0) (data.shape.getD 1 0) = [data.shape.getD 1 0] := by
  refine ⟨?_, rfl, rfl, ?_⟩
  · intro k
    show hasTaskKey (dsk_r data pfx0) k = _
    unfold dsk_r
    rw [hasTaskKey_append, hasTaskKey_append, hasTaskKey_append, hasTaskKey_append,
      hasTaskKey_append]
  · have hn := shape_n_pos data hv hw
    unfold chunksOf
    rw [Nat.div_self hn, Nat.mod_self]
    simp

/-- C7 counterexample: on a concrete accepted input the returned triangular
graph binds block 0's local QR task key, which the union the claim
enumerates does not contain - the claim's equality is false. -/
theorem qr_r_graph_claim_cex :
    hasTaskKey (resRGraph (qr cexData (some "t") 0)) ⟨"t_QR_st1", 0, 0⟩ = true ∧
    hasTaskKey (c7ClaimedGraph cexData "t") ⟨"t_QR_st1", 0, 0⟩ = false := by
  constructor
  · decide
  · decide

/-- Witness for the amended C7 on the concrete 2x2 input. -/
theorem qr_r_graph_amended_witness :
    (qrBuild cexData "t").2.shape = [cexData.shape.getD 1 0, cexData.shape.getD 1 0] ∧
    chunksOf (cexData.shape.getD 1 0) (cexData.shape.getD 1 0) = [cexData.shape.getD 1 0] :=
  ⟨(qr_r_graph_amended cexData "t" (by decide) (by decide)).2.1,
   (qr_r_graph_amended cexData "t" (by decide) (by decide)).2.2.2⟩

/-- C8 (amended): the orthogonal handle's graph is the union of the input
graph, all Stage1 dictionaries, the Stage2 stack, global-QR and
orthogonal-auxiliary extraction tasks, the Stage3 slice dictionary and the
Assembly dictionary; the Stage2 triangular-extraction task is not merged
into this graph (its key appears only if the input graph already bound
it); shape and blockshape are the input's shape and first-block shape. -/
theorem qr_q_graph_amended (data : DArray) (pfx0 : String)
    (hv : ValidInput data) (hw : WellFormed data) :
    (∀ k, hasTaskKey (qrBuild data pfx0).1.dask k =
      (hasTaskKey data.dask k
        || hasTaskKey (dsk_qr_st1 (pfx0 ++ "_") data.name (qrNumblocks data)) k
        || hasTaskKey (dsk_q_st1 (pfx0 ++ "_") (qrNumblocks data).1) k
        || hasTaskKey (dsk_r_st1 (pfx0 ++ "_") (qrNumblocks data).1) k
        || hasTaskKey (dsk_r_st1_stacked (pfx0 ++ "_") (qrNumblocks data).1) k
        || hasTaskKey (dsk_qr_st2 (pfx0 ++ "_")) k
        || hasTaskKey (dsk_q_st2_aux (pfx0 ++ "_")) k
        || hasTaskKey (dsk_q_st2 (pfx0 ++ "_") (qrNumblocks data) (data.shape.getD 1 0)) k
        || hasTaskKey (dsk_q_st3 (pfx0 ++ "_") (qrNumblocks data)) k)) ∧
    (qrBuild data pfx0).1.shape = data.shape ∧
    (qrBuild data pfx0).1.blockshape = blockshapeOf data ∧
    hasTaskKey (qrBuild data pfx0).1.dask ⟨(pfx0 ++ "_") ++ "R", 0, 0⟩
      = hasTaskKey data.dask ⟨(pfx0 ++ "_") ++ "R", 0, 0⟩ := by
  refine ⟨?_, rfl, rfl, ?_⟩
  · intro k
    show hasTaskKey (dsk_q data pfx0) k = _
    unfold dsk_q
    rw [hasTaskKey_append, hasTaskKey_append, hasTaskKey_append, hasTaskKey_append,
      hasTaskKey_append, hasTaskKey_append, hasTaskKey_append, hasTaskKey_append]
  · show hasTaskKey (dsk_q data pfx0) _ = _
    unfold dsk_q dsk_qr_st1 dsk_q_st1 dsk_r_st1 dsk_r_st1_stacked dsk_qr_st2
      dsk_q_st2_aux dsk_q_st2 dsk_q_st3
    rw [hasTaskKey_append, hasTaskKey_append, hasTaskKey_append, hasTaskKey_append,
      hasTaskKey_append, hasTaskKey_append, hasTaskKey_append, hasTaskKey_append]
    rw [hasKey_skip (by decide), hasKey_skip (by decide), hasKey_skip (by decide),
      hasKey_skip (by decide), hasKey_skip (by decide), hasKey_skip (by decide),
      hasKey_skip (by decide), hasKey_skip (by decide)]
    simp

/-- C8 counterexample: on a concrete accepted input the union the claim
enumerates contains the Stage2 triangular-extraction key, but the returned
orthogonal graph does not - the claim's equality is false. -/
theorem qr_q_graph_claim_cex :
    hasTaskKey (c8ClaimedGraph cexData "t") ⟨"t_R", 0, 0⟩ = true ∧
    hasTaskKey (resQGraph (qr cexData (some "t") 0)) ⟨"t_R", 0, 0⟩ = false := by
  constructor
  · decide
  · decide

/-- Witness for the amended C8 on the concrete 2x2 input. -/
theorem qr_q_graph_amended_witness :
    (qrBuild cexData "t").1.shape = cexData.shape ∧
    hasTaskKey (qrBuild cexData "t").1.dask ⟨("t" ++ "_") ++ "R", 0, 0⟩
      = hasTaskKey cexData.dask ⟨("t" ++ "_") ++ "R", 0, 0⟩ :=
  ⟨(qr_q_graph_amended cexData "t" (by decide) (by decide)).2.1,
   (qr_q_graph_amended cexData "t" (by decide) (by decide)).2.2.2⟩

/- ======================= naming (C9) ======================= -/

/-- Decoding little-endian decimal digits back to the number. -/
def unDigits (l : List Nat) : Nat := l.foldr (fun d acc => d + 10 * acc) 0

/-- The digit expansion is faithful: decoding inverts it. -/
lemma unDigits_decDigitsAux : ∀ fuel n, n ≤ fuel → unDigits (decDigitsAux fuel n) = n := by
  intro fuel
  induction fuel with
  | zero =>
    intro n h
    have hz : n = 0 := by omega
    rw [hz]
    rfl
  | succ f ih =>
    intro n h
    unfold decDigitsAux
    by_cases hn : n = 0
    · rw [if_pos hn, hn]
      rfl
    · rw [if_neg hn]
      unfold unDigits
      rw [List.foldr_cons]
      have hlt : n / 10 < n := Nat.div_lt_self (Nat.pos_of_ne_zero hn) (by omega)
      have hrec := ih (n / 10) (by omega)
      unfold unDigits at hrec
      rw [hrec]
      omega

/-- Digit expansions determine the number. -/
lemma decDigits_inj (a b : Nat) (h : decDigits a = decDigits b) : a = b := by
  have ha := unDigits_decDigitsAux a a (Nat.le_refl a)
  have hb := unDigits_decDigitsAux b b (Nat.le_refl b)
  unfold decDigits at h
  rw [h] at ha
  exact ha.symm.trans hb

/-- Every produced digit is below 10. -/
lemma decDigitsAux_lt_ten : ∀ fuel n d, d ∈ decDigitsAux fuel n → d < 10 := by
  intro fuel
  induction fuel with
  | zero =>
    intro n d h
    simp [decDigitsAux] at h
  | succ f ih =>
    intro n d h
    unfold decDigitsAux at h
    by_cases hn : n = 0
    · rw [if_pos hn] at h
      simp at h
    · rw [if_neg hn] at h
      rcases List.mem_cons.mp h with h1 | h1
      · rw [h1]
        exact Nat.mod_lt _ (by omega)
      · exact ih _ _ h1

/-- The digit character determines the digit. -/
lemma unDigitChar_digitChar (d : Nat) (h : d < 10) : (digitChar d).toNat - 48 = d := by
  interval_cases d <;> decide

/-- Rendering digit lists to characters is injective on digit lists. -/
lemma map_digitChar_inj : ∀ l1 l2 : List Nat, (∀ d ∈ l1, d < 10) → (∀ d ∈ l2, d < 10) →
    l1.map digitChar = l2.map digitChar → l1 = l2 := by
  intro l1
  induction l1 with
  | nil =>
    intro l2 _ _ h
    cases l2 with
    | nil => rfl
    | cons b t => simp at h
  | cons a t ih =>
    intro l2 h1 h2 h
    cases l2 with
    | nil => simp at h
    | cons b t2 =>
      rw [List.map_cons, List.map_cons] at h
      have hab : digitChar a = digitChar b := by injection h
      have ht : t.map digitChar = t2.map digitChar := by injection h
      have ha : a < 10 := h1 a (by simp)
      have hb : b < 10 := h2 b (by simp)
      have hd : a = b := by
        have e1 := unDigitChar_digitChar a ha
        have e2 := unDigitChar_digitChar b hb
        rw [hab] at e1
        omega
      rw [hd, ih t2 (fun d hd2 => h1 d (by simp [hd2])) (fun d hd2 => h2 d (by simp [hd2])) ht]

/-- Strings with equal character data are equal. -/
lemma string_ext (a b : String) (h : a.data = b.data) : a = b := by
  cases a with
  | mk l1 =>
    cases b with
    | mk l2 =>
      have h2 : l1 = l2 := h
      rw [h2]

/-- The decimal rendering is injective. -/
lemma natRepr_inj (a b : Nat) (h : natRepr a = natRepr b) : a = b := by
  unfold natRepr at h
  by_cases ha : a = 0 <;> by_cases hb : b = 0
  · omega
  · exfalso
    rw [if_pos ha, if_neg hb] at h
    have hd : ([0] : List Nat).map digitChar = ((decDigits b).reverse).map digitChar :=
      congrArg String.data h
    have hrev : ([0] : List Nat) = (decDigits b).reverse := by
      apply map_digitChar_inj
      · intro d hd2
        rw [List.mem_singleton] at hd2
        omega
      · intro d hd2
        rw [List.mem_reverse] at hd2
        exact decDigitsAux_lt_ten _ _ _ hd2
      · exact hd
    have hdig : decDigits b = [0] := by
      have h0 := congrArg List.reverse hrev
      simpa using h0.symm
    have hub := unDigits_decDigitsAux b b (Nat.le_refl b)
    unfold decDigits at hdig
    rw [hdig] at hub
    exact hb hub.symm
  · exfalso
    rw [if_neg ha, if_pos hb] at h
    have hd : ((decDigits a).reverse).map digitChar = ([0] : List Nat).map digitChar :=
      congrArg String.data h
    have hrev : (decDigits a).reverse = ([0] : List Nat) := by
      apply map_digitChar_inj
      · intro d hd2
        rw [List.mem_reverse] at hd2
        exact decDigitsAux_lt_ten _ _ _ hd2
      · intro d hd2
        rw [List.mem_singleton] at hd2
        omega
      · exact hd
    have hdig : decDigits a = [0] := by
      have h0 := congrArg List.reverse hrev
      simpa using h0
    have hua := unDigits_decDigitsAux a a (Nat.le_refl a)
    unfold decDigits at hdig
    rw [hdig] at hua
    exact ha hua.symm
  · rw [if_neg ha, if_neg hb] at h
    have hd : ((decDigits a).reverse).map digitChar = ((decDigits b).reverse).map digitChar :=
      congrArg String.data h
    have hrev := map_digitChar_inj _ _
      (fun d hd2 => decDigitsAux_lt_ten _ _ d (List.mem_reverse.mp hd2))
      (fun d hd2 => decDigitsAux_lt_ten _ _ d (List.mem_reverse.mp hd2)) hd
    have hdig : decDigits a = decDigits b := by
      have h0 := congrArg List.reverse hrev
      simpa using h0
    exact decDigits_inj a b hdig

/-- Distinct counter values draw distinct auto names. -/
lemma autoName_inj (i j : Nat) (h : autoName i = autoName j) : i = j := by
  unfold autoName at h
  have hd := congrArg String.data h
  rw [String.data_append, String.data_append] at hd
  have h2 := List.append_cancel_left hd
  exact natRepr_inj i j (string_ext _ _ h2)

/-- A list is a Boolean prefix of itself extended by anything. -/
lemma isPrefixOf_append_self : ∀ (l t : List Char), List.isPrefixOf l (l ++ t) = true := by
  intro l
  induction l with
  | nil =>
    intro t
    cases t with
    | nil => rfl
    | cons b t2 => rfl
  | cons a l ih =>
    intro t
    simp only [List.cons_append, List.isPrefixOf_cons₂_self]
    exact ih t

/-- Splitting a shared underscore-separated concatenation: when neither
suffix reaches across the other's separator, both components agree. -/
lemma underscore_append_inj (r1 r2 x y : List Char)
    (h1 : List.isPrefixOf (r1 ++ [          '_']) r2 = false)
    (h2 : List.isPrefixOf (r2 ++ [          '_']) r1 = false)
    (heq : r1 ++ '_' :: x = r2 ++ '_' :: y) : r1 = r2 ∧ x = y := by
  rcases List.append_eq_append_iff.mp heq with ⟨a, ha, hb⟩ | ⟨a, ha, hb⟩
  · cases a with
    | nil =>
      simp at ha hb
      exact ⟨ha.symm, hb⟩
    | cons c a2 =>
      exfalso
      rw [List.cons_append] at hb
      have hc : ('_' : Char) = c := by injection hb
      rw [← hc] at ha
      have : List.isPrefixOf (r1 ++ [          '_']) r2 = true := by
        rw [ha, show r1 ++ '_' :: a2 = (r1 ++ [          '_']) ++ a2 from by simp]
        exact isPrefixOf_append_self _ _
      exact absurd (this.symm.trans h1) (by decide)
  · cases a with
    | nil =>
      simp at ha hb
      exact ⟨ha, hb.symm⟩
    | cons c a2 =>
      exfalso
      rw [List.cons_append] at hb
      have hc : ('_' : Char) = c := by injection hb
      rw [← hc] at ha
      have : List.isPrefixOf (r2 ++ [          '_']) r1 = true := by
        rw [ha, show r2 ++ '_' :: a2 = (r2 ++ [          '_']) ++ a2 from by simp]
        exact isPrefixOf_append_self _ _
      exact absurd (this.symm.trans h2) (by decide)

/-- No reversed suffix extended by the separator is a prefix of another
reversed suffix: no task-name suffix reaches across another's separator. -/
lemma suffix_no_clash : ∀ s1 ∈ suffixList, ∀ s2 ∈ suffixList,
    List.isPrefixOf (s1.data.reverse ++ [          '_']) s2.data.reverse = false := by
  decide

/-- Full task names determine the call prefix and the stage suffix. -/
lemma suffix_key_name_inj (n1 n2 s1 s2 : String) (hs1 : s1 ∈ suffixList)
    (hs2 : s2 ∈ suffixList) (heq : (n1 ++ "_") ++ s1 = (n2 ++ "_") ++ s2) :
    n1 = n2 ∧ s1 = s2 := by
  have hd : n1.data ++ '_' :: s1.data = n2.data ++ '_' :: s2.data := by
    have h0 := congrArg String.data heq
    rw [String.data_append, String.data_append, String.data_append,
      String.data_append] at h0
    simpa using h0
  have hr : s1.data.reverse ++ '_' :: n1.data.reverse
      = s2.data.reverse ++ '_' :: n2.data.reverse := by
    have h0 := congrArg List.reverse hd
    simpa [List.reverse_append] using h0
  obtain ⟨hs, hn⟩ := underscore_append_inj _ _ _ _
    (suffix_no_clash s1 hs1 s2 hs2) (suffix_no_clash s2 hs2 s1 hs1) hr
  constructor
  · apply string_ext
    have h0 := congrArg List.reverse hn
    simpa using h0
  · apply string_ext
    have h0 := congrArg List.reverse hs
    simpa using h0

/-- Every key of a keyed family carries the family's namespace string. -/
lemma keyedDict_key_name (nm : String) (idx : List (Nat × Nat)) (f : Nat × Nat → Recipe)
    (k : TaskKey) (h : k ∈ (keyedDict nm idx f).map (fun e => e.1)) : k.name = nm := by
  unfold keyedDict at h
  rw [List.map_map, List.mem_map] at h
  obtain ⟨ij, _, rfl⟩ := h
  rfl

/-- Every created key's name is the call prefix followed by a stage suffix. -/
lemma createdKeys_name (data : DArray) (pfx0 : String) (k : TaskKey)
    (h : k ∈ createdKeys data pfx0) :
    ∃ s ∈ suffixList, k.name = (pfx0 ++ "_") ++ s := by
  unfold createdKeys createdDicts at h
  simp only [List.map_append, List.mem_append] at h
  rcases h with ((((((((h | h) | h) | h) | h) | h) | h) | h) | h)
  · exact ⟨"QR_st1", by simp [suffixList], keyedDict_key_name _ _ _ _ h⟩
  · exact ⟨"Q_st1", by simp [suffixList], keyedDict_key_name _ _ _ _ h⟩
  · exact ⟨"R_st1", by simp [suffixList], keyedDict_key_name _ _ _ _ h⟩
  · exact ⟨"R_st1_stacked", by simp [suffixList], keyedDict_key_name _ _ _ _ h⟩
  · exact ⟨"QR_st2", by simp [suffixList], keyedDict_key_name _ _ _ _ h⟩
  · exact ⟨"Q_st2_aux", by simp [suffixList], keyedDict_key_name _ _ _ _ h⟩
  · exact ⟨"Q_st2", by simp [suffixList], keyedDict_key_name _ _ _ _ h⟩
  · exact ⟨"R", by simp [suffixList], keyedDict_key_name _ _ _ _ h⟩
  · exact ⟨"Q", by simp [suffixList], keyedDict_key_name _ _ _ _ h⟩

/-- Every entry of the orthogonal output graph is an input entry or a
created entry. -/
lemma dskq_entry_covered (d : DArray) (pfx0 : String) (x : TaskKey × Recipe)
    (hx : x ∈ dsk_q d pfx0) : x ∈ d.dask ∨ x ∈ createdDicts d pfx0 := by
  unfold dsk_q at hx
  unfold createdDicts
  simp only [List.mem_append] at hx ⊢
  tauto

/-- Every entry of the triangular output graph is an input entry or a
created entry. -/
lemma dskr_entry_covered (d : DArray) (pfx0 : String) (x : TaskKey × Recipe)
    (hx : x ∈ dsk_r d pfx0) : x ∈ d.dask ∨ x ∈ createdDicts d pfx0 := by
  unfold dsk_r at hx
  unfold createdDicts
  simp only [List.mem_append] at hx ⊢
  tauto

/-- C9 (amended): distinct non-empty explicit names give disjoint sets of
created task keys (an empty explicit name is falsy in the source and falls
back to the auto generator, which the original claim overlooks); distinct
draws of the auto generator are distinct names, and an unnamed call draws
the next auto name while advancing the counter; every created key's name
starts with the call's namespace; and every key of either returned graph
is an input key or a created key. -/
theorem qr_naming_amended :
    (∀ (d1 d2 : DArray) (c1 c2 : Nat) (n1 n2 : String), n1 ≠ "" → n2 ≠ "" → n1 ≠ n2 →
      ∀ k, k ∈ createdKeys d1 (drawName (some n1) c1).1 →
        k ∉ createdKeys d2 (drawName (some n2) c2).1) ∧
    (∀ i j : Nat, i ≠ j → autoName i ≠ autoName j) ∧
    (∀ c : Nat, drawName none c = (autoName (c + 1), c + 1)) ∧
    (∀ (d : DArray) (nm : String) (k : TaskKey), k ∈ createdKeys d nm →
      List.isPrefixOf nm.data k.name.data = true) ∧
    (∀ (d : DArray) (pfx0 : String) (k : TaskKey),
      (hasTaskKey (qrBuild d pfx0).1.dask k = true ∨
        hasTaskKey (qrBuild d pfx0).2.dask k = true) →
      hasTaskKey d.dask k = true ∨ k ∈ createdKeys d pfx0) := by
  refine ⟨?_, ?_, ?_, ?_, ?_⟩
  · intro d1 d2 c1 c2 n1 n2 hn1 hn2 hne k h1 h2
    rw [show (drawName (some n1) c1).1 = n1 from by simp [drawName, hn1]] at h1
    rw [show (drawName (some n2) c2).1 = n2 from by simp [drawName, hn2]] at h2
    obtain ⟨s1, hs1, e1⟩ := createdKeys_name d1 n1 k h1
    obtain ⟨s2, hs2, e2⟩ := createdKeys_name d2 n2 k h2
    exact hne (suffix_key_name_inj n1 n2 s1 s2 hs1 hs2 (e1.symm.trans e2)).1
  · intro i j hne h
    exact hne (autoName_inj i j h)
  · intro c
    rfl
  · intro d nm k h
    obtain ⟨s, _, e⟩ := createdKeys_name d nm k h
    rw [e]
    have hsplit : ((nm ++ "_") ++ s).data = nm.data ++ ('_' :: s.data) := by
      rw [String.data_append, String.data_append]
      simp
    rw [hsplit]
    exact isPrefixOf_append_self _ _
  · intro d pfx0 k h
    rcases h with h | h
    · replace h : hasTaskKey (dsk_q d pfx0) k = true := h
      unfold hasTaskKey at h
      obtain ⟨e, he, hp⟩ := List.any_eq_true.mp h
      rcases dskq_entry_covered d pfx0 e he with h2 | h2
      · left
        unfold hasTaskKey
        exact List.any_eq_true.mpr ⟨e, h2, hp⟩
      · right
        unfold createdKeys
        rw [List.mem_map]
        exact ⟨e, h2, of_decide_eq_true hp⟩
    · replace h : hasTaskKey (dsk_r d pfx0) k = true := h
      unfold hasTaskKey at h
      obtain ⟨e, he, hp⟩ := List.any_eq_true.mp h
      rcases dskr_entry_covered d pfx0 e he with h2 | h2
      · left
        unfold hasTaskKey
        exact List.any_eq_true.mpr ⟨e, h2, hp⟩
      · right
        unfold createdKeys
        rw [List.mem_map]
        exact ⟨e, h2, of_decide_eq_true hp⟩

/-- C9 counterexample: the calls with the distinct explicit names `""` and
`"tsqr_1"` on a fresh counter produce overlapping task keys, because the
empty string is falsy in `name or next(names)` and falls back to the auto
generator: both calls create the key `(tsqr_1_Q, 0, 0)`, which is not an
input key. -/
theorem qr_naming_empty_name_cex :
    ("" : String) ≠ "tsqr_1" ∧
    hasTaskKey cexData.dask ⟨"tsqr_1_Q", 0, 0⟩ = false ∧
    hasTaskKey (resQGraph (qr cexData (some "") 0)) ⟨"tsqr_1_Q", 0, 0⟩ = true ∧
    hasTaskKey (resQGraph (qr cexData (some "tsqr_1") 0)) ⟨"tsqr_1_Q", 0, 0⟩ = true := by
  refine ⟨by decide, by decide, by decide, by decide⟩

/-- Witness for the amended C9: the key created under the name `a` is not
created under the name `b`, and two successive auto names differ. -/
theorem qr_naming_amended_witness :
    (⟨("a" ++ "_") ++ "Q", 0, 0⟩ : TaskKey) ∉ createdKeys cexData (drawName (some "b") 0).1 ∧
    autoName 1 ≠ autoName 2 :=
  ⟨qr_naming_amended.1 cexData cexData 0 0 "a" "b" (by decide) (by decide) (by decide)
      ⟨("a" ++ "_") ++ "Q", 0, 0⟩ (by decide),
   qr_naming_amended.2.1 1 2 (by decide)⟩

/- ======================= exact TSQR algebra (C1) ======================= -/

open Matrix

/-- The Gram matrix of a row-concatenation is the sum of the blocks' Gram
matrices. -/
lemma concatBlocks_gram (α : Type) [CommRing α] (nb n : Nat) (r : Fin nb → Nat)
    (F : (i : Fin nb) → Matrix (Fin (r i)) (Fin n) α) :
    (concatBlocks α nb n r F)ᵀ * concatBlocks α nb n r F
      = ∑ i : Fin nb, (F i)ᵀ * F i := by
  ext a b
  rw [Matrix.mul_apply, Matrix.sum_apply]
  rw [← Finset.univ_sigma_univ, Finset.sum_sigma]
  apply Finset.sum_congr rfl
  intro i _
  rw [Matrix.mul_apply]
  apply Finset.sum_congr rfl
  intro k _
  rfl

/-- The slices' Gram matrices sum to the Gram matrix of the sliced matrix:
the `nb` row ranges partition the rows. -/
lemma slice_gram (α : Type) [CommRing α] (nb n : Nat)
    (Q2 : Matrix (Fin nb × Fin n) (Fin n) α) :
    ∑ i : Fin nb, (sliceBlock α nb n Q2 i)ᵀ * sliceBlock α nb n Q2 i = Q2ᵀ * Q2 := by
  ext a b
  rw [Matrix.sum_apply, Matrix.mul_apply, Fintype.sum_prod_type]
  apply Finset.sum_congr rfl
  intro i _
  rw [Matrix.mul_apply]
  apply Finset.sum_congr rfl
  intro k _
  rfl

/-- Multiplying a slice on the right commutes with slicing. -/
lemma sliceBlock_mul (α : Type) [CommRing α] (nb n : Nat)
    (Q2 : Matrix (Fin nb × Fin n) (Fin n) α) (R2 : Matrix (Fin n) (Fin n) α) (i : Fin nb) :
    sliceBlock α nb n Q2 i * R2 = sliceBlock α nb n (Q2 * R2) i := by
  ext k j
  rw [Matrix.mul_apply]
  rw [show sliceBlock α nb n (Q2 * R2) i k j = (Q2 * R2) (i, k) j from rfl]
  rw [Matrix.mul_apply]
  rfl

/-- Slicing the stack of the local triangular factors recovers block `i`. -/
lemma sliceBlock_vstack (α : Type) (nb n : Nat)
    (R1 : Fin nb → Matrix (Fin n) (Fin n) α) (i : Fin nb) :
    sliceBlock α nb n (vstackBlocks α nb n R1) i = R1 i := by
  ext k j
  rfl

/-- C1: the ideal-arithmetic contract of the assembly stage.  Whenever the
dense primitive returns, for each row block, a factor with orthonormal
columns and a triangular factor reproducing the block (which it does
whenever every row block has at least `n` rows), and likewise for the
stacked matrix, then the per-block `np.dot` outputs, concatenated by
ascending row-block index, form a matrix with orthonormal columns, and
multiplying each assembled block by the final triangular factor reproduces
the corresponding input block exactly (so the floating computation matches
up to rounding). -/
theorem tsqr_assembly_contract (α : Type) [CommRing α] (nb n : Nat) (r : Fin nb → Nat)
    (A Q1 : (i : Fin nb) → Matrix (Fin (r i)) (Fin n) α)
    (R1 : Fin nb → Matrix (Fin n) (Fin n) α)
    (Q2 : Matrix (Fin nb × Fin n) (Fin n) α) (R2 : Matrix (Fin n) (Fin n) α)
    (hQ1 : ∀ i, (Q1 i)ᵀ * Q1 i = 1)
    (hA : ∀ i, Q1 i * R1 i = A i)
    (hQ2 : Q2ᵀ * Q2 = 1)
    (hQR2 : Q2 * R2 = vstackBlocks α nb n R1) :
    ((concatBlocks α nb n r (fun i => Q1 i * sliceBlock α nb n Q2 i))ᵀ
        * concatBlocks α nb n r (fun i => Q1 i * sliceBlock α nb n Q2 i) = 1) ∧
    (∀ i, (Q1 i * sliceBlock α nb n Q2 i) * R2 = A i) := by
  constructor
  · rw [concatBlocks_gram]
    have hstep : ∀ i : Fin nb,
        (Q1 i * sliceBlock α nb n Q2 i)ᵀ * (Q1 i * sliceBlock α nb n Q2 i)
          = (sliceBlock α nb n Q2 i)ᵀ * sliceBlock α nb n Q2 i := by
      intro i
      rw [Matrix.transpose_mul, Matrix.mul_assoc,
        ← Matrix.mul_assoc (Q1 i)ᵀ (Q1 i) (sliceBlock α nb n Q2 i), hQ1 i, Matrix.one_mul]
    rw [Finset.sum_congr rfl (fun i _ => hstep i), slice_gram, hQ2]
  · intro i
    rw [Matrix.mul_assoc, sliceBlock_mul, hQR2, sliceBlock_vstack, hA]

/-- Witness for C1 with one 1x1 block over the rationals. -/
theorem tsqr_assembly_contract_witness :
    ((1 : Matrix (Fin 1) (Fin 1) ℚ)
        * sliceBlock ℚ 1 1 (Matrix.of fun _ _ => (1 : ℚ)) 0) * 1
      = (1 : Matrix (Fin 1) (Fin 1) ℚ) :=
  (tsqr_assembly_contract ℚ 1 1 (fun _ => 1) (fun _ => 1) (fun _ => 1) (fun _ => 1)
      (Matrix.of fun _ _ => (1 : ℚ)) 1
      (fun i => by simp)
      (fun i => by simp)
      (by
        ext a b
        rw [Matrix.mul_apply]
        simp [Matrix.one_apply, Fin.eq_zero])
      (by
        ext p j
        rw [Matrix.mul_apply]
        simp [vstackBlocks, Matrix.one_apply, Fin.eq_zero])).2 0
